import Mathlib

/-!
Verification of the sandbox lifecycle engine of cloud-gov/cg-sandbox
(`cmd/purge/sandbox.go`): age classification, purge orchestration with its
compensating fallback, role snapshot and recreation, and notification
recipient listing.

Timestamps are modelled as integers (nanoseconds since the Go zero time); the
`time.Time` zero value that `letFirstResource` uses as a sentinel becomes the
integer `0`.  The remote collaborators (the `cfResourceClient` wrappers) are
modelled as an environment of response functions, and each orchestration
function returns, next to its result, the list of remote API calls it issued,
in order.  Go loops are written as structural recursion or folds preserving
iteration order; nil-pointer dereference is outside the model (struct pointers
that the code dereferences unconditionally are modelled as plain values).
-/

namespace CgSandbox

/-- Length of a day (`24 * time.Hour`) in nanoseconds, the unit of
`time.Duration`. -/
def day : Int := 86400000000000

/-- Go `t.Truncate(24 * time.Hour)`: round a timestamp down to a multiple of a
day since the zero time. -/
def truncateDay (t : Int) : Int := day * Int.fdiv t day

/-- Go `resource.App`: its guid, owning space guid
(`app.Relationships.Space.Data.GUID`) and creation timestamp. -/
structure App where
  guid : String
  spaceGUID : String
  createdAt : Int
deriving DecidableEq, Repr

/-- Go `resource.ServiceInstance`: owning space guid and creation
timestamp. -/
structure ServiceInstance where
  guid : String
  spaceGUID : String
  createdAt : Int
deriving DecidableEq, Repr

/-- Go `resource.Relationship`: a guid. -/
structure Relationship where
  guid : String
deriving DecidableEq, Repr

/-- Go `resource.SpaceRelationships`: the organization and optional quota
relationships of a space. -/
structure SpaceRelationships where
  organization : Option Relationship
  quota : Option Relationship
deriving DecidableEq, Repr

/-- Go `resource.Space`. -/
structure Space where
  guid : String
  name : String
  relationships : SpaceRelationships
deriving DecidableEq, Repr

/-- Go `resource.Organization`. -/
structure Organization where
  guid : String
  name : String
deriving DecidableEq, Repr

/-- Go `resource.SpaceCreate`: the request body of a space-create call. -/
structure SpaceCreate where
  name : String
  relationships : SpaceRelationships
deriving DecidableEq, Repr

/-- Go `resource.SpaceQuota`. -/
structure SpaceQuota where
  guid : String
  name : String
deriving DecidableEq, Repr

/-- Go `resource.User`. -/
structure User where
  guid : String
  username : String
deriving DecidableEq, Repr

/-- Go `resource.Role`: only the two fields `sandbox.go` reads, the role type
string and the bound user's guid (`role.Relationships.User.Data.GUID`). -/
structure Role where
  type : String
  userGUID : String
deriving DecidableEq, Repr

/-- Go `resource.SpaceRoleType`: the two kinds `sandbox.go` uses. -/
inductive SpaceRoleType where
  | developer
  | manager
deriving DecidableEq, Repr

/-- Go `resource.SpaceRoleType.String()`. -/
def SpaceRoleType.str : SpaceRoleType → String
  | .developer => "space_developer"
  | .manager => "space_manager"

/-- Go `spaceUser` from `sandbox.go`. -/
structure spaceUser where
  guid : String
  username : String
deriving DecidableEq, Repr

/-- Go `SpaceDetails` from `sandbox.go`: a space and its first-resource
creation time. -/
structure SpaceDetails where
  timestamp : Int
  space : Space
deriving DecidableEq, Repr

/-- The configuration fields of `Options` consumed by the functions under
verification. -/
structure Options where
  notifyDays : Int
  purgeDays : Int
  disablePurge : Bool
  sandboxQuotaName : String
deriving DecidableEq, Repr

/-- One step of the minimum scan in `letFirstResource`:
`if firstResource.IsZero() || created.Before(firstResource)` then take
`created`. -/
def firstStep (firstResource createdAt : Int) : Int :=
  if firstResource == 0 || createdAt < firstResource then createdAt else firstResource

/-- Go `letFirstResource`: the creation timestamp of the earliest-created
resource in a space, `0` (the zero time) when the space owns none.
`groupAppsBySpace` and `groupInstancesBySpace` keep input order within each
space, so indexing the grouped map at `space.GUID` is the order-preserving
filter.  The Go error result is always nil and is omitted. -/
def letFirstResource (space : Space) (apps : List App)
    (instances : List ServiceInstance) : Int :=
  let fromApps := (apps.filter (fun a => a.spaceGUID == space.guid)).foldl
    (fun fr a => firstStep fr a.createdAt) 0
  (instances.filter (fun i => i.spaceGUID == space.guid)).foldl
    (fun fr i => firstStep fr i.createdAt) fromApps

/-- Go `listPurgeSpaces`, with the loop over `spaces` written as structural
recursion (the current space's contribution comes before the later ones, as
with the Go appends).  `delta` is `int(now.Sub(firstResource).Hours() / 24)`:
division truncated toward zero, `Int.tdiv` (exact arithmetic in place of the
float roundtrip).  The Go error result is always nil and is omitted. -/
def listPurgeSpaces (spaces : List Space) (apps : List App)
    (instances : List ServiceInstance) (opts : Options) (now : Int)
    (timeStartsAt : Int) : List SpaceDetails × List SpaceDetails :=
  match spaces with
  | [] => ([], [])
  | space :: rest =>
    let prev := listPurgeSpaces rest apps instances opts now timeStartsAt
    let firstResource := letFirstResource space apps instances
    if firstResource == 0 then
      prev
    else
      let clamped := if timeStartsAt > firstResource then timeStartsAt else firstResource
      let truncated := truncateDay clamped
      let delta := Int.tdiv (now - truncated) day
      if !opts.disablePurge && delta ≥ opts.purgeDays then
        (prev.1, ⟨truncated, space⟩ :: prev.2)
      else if delta ≥ opts.notifyDays then
        (⟨truncated, space⟩ :: prev.1, prev.2)
      else
        prev

/-- Creation timestamps of the apps and service instances a space owns, in
input order (spec-side, for stating the classification-timestamp claim). -/
def ownedCreationTimes (space : Space) (apps : List App)
    (instances : List ServiceInstance) : List Int :=
  (apps.filter (fun a => a.spaceGUID == space.guid)).map App.createdAt ++
    (instances.filter (fun i => i.spaceGUID == space.guid)).map ServiceInstance.createdAt

/-- The classification timestamp exactly as `listPurgeSpaces` computes it:
first-resource time, clamped to the epoch `timeStartsAt`, day-truncated. -/
def classificationTimestamp (space : Space) (apps : List App)
    (instances : List ServiceInstance) (timeStartsAt : Int) : Int :=
  let firstResource := letFirstResource space apps instances
  let clamped := if timeStartsAt > firstResource then timeStartsAt else firstResource
  truncateDay clamped

/-- The day delta exactly as `listPurgeSpaces` computes it. -/
def classificationDelta (space : Space) (apps : List App)
    (instances : List ServiceInstance) (timeStartsAt : Int) (now : Int) : Int :=
  Int.tdiv (now - classificationTimestamp space apps instances timeStartsAt) day

/-- Go errors: plain base errors, the distinguished `ErrNoSpaceDeleteJobGUID`,
and `fmt.Errorf("...: %w", err)` wrapping. -/
inductive Err where
  | noSpaceDeleteJobGUID
  | base (msg : String)
  | wrap (msg : String) (inner : Err)
deriving DecidableEq, Repr

/-- Go `errors.Is`: does `e` equal `target` or wrap it at some depth? -/
def Err.is (e target : Err) : Bool :=
  match e with
  | .wrap _ inner => e == target || Err.is inner target
  | _ => e == target

/-- One remote API call, as issued by the orchestration functions. -/
inductive Call where
  | spacesDelete (spaceGUID : String)
  | applicationsList (spaceGUID : String)
  | applicationsDelete (appGUID : String)
  | spaceQuotasSingle (orgGUID : String) (quotaName : Option String)
  | spacesCreate (request : SpaceCreate)
  | spaceQuotasApply (quotaGUID : String) (spaceGUIDs : List String)
  | createSpaceRole (spaceGUID : String) (userGUID : String) (roleType : SpaceRoleType)
  | jobsPollComplete (jobGUID : String)
deriving DecidableEq, Repr

/-- Responses of the remote collaborators (the `cfResourceClient` wrappers),
one function per operation the verified code uses, keyed by the filter values
the code passes: `Applications.ListAll` is always called with a space-guid
filter, `SpaceQuotas.Single` with an organization filter and an optional
name filter. -/
structure Env where
  spacesDelete : String → Except Err String
  applicationsList : String → Except Err (List App)
  applicationsDelete : String → Except Err String
  spaceQuotasSingle : String → Option String → Except Err SpaceQuota
  spacesCreate : SpaceCreate → Except Err Space
  spaceQuotasApply : String → List String → Except Err (List String)
  createSpaceRole : String → String → SpaceRoleType → Except Err Unit
  jobsPollComplete : String → Except Err Unit

/-- The per-app deletion loop inside `purgeSpace`'s fallback: delete each app,
stopping at the first failure. -/
def deleteAppsLoop (env : Env) : List App → Except Err Unit × List Call
  | [] => (.ok (), [])
  | app :: rest =>
    match env.applicationsDelete app.guid with
    | .error e => (.error e, [.applicationsDelete app.guid])
    | .ok _ =>
      let next := deleteAppsLoop env rest
      (next.1, .applicationsDelete app.guid :: next.2)

/-- Go `purgeSpace`: delete a space; if the delete fails, list the space's
apps and delete each one, then return.  On the fallback path the Go function
returns an empty job guid together with: the listing error if listing failed,
the first per-app deletion error if one occurred, and the original delete
error otherwise. -/
def purgeSpace (env : Env) (space : Space) : Except Err String × List Call :=
  match env.spacesDelete space.guid with
  | .ok jobGUID => (.ok jobGUID, [.spacesDelete space.guid])
  | .error spaceErr =>
    match env.applicationsList space.guid with
    | .error e => (.error e, [.spacesDelete space.guid, .applicationsList space.guid])
    | .ok apps =>
      let deleted := deleteAppsLoop env apps
      match deleted.1 with
      | .error e =>
        (.error e, .spacesDelete space.guid :: .applicationsList space.guid :: deleted.2)
      | .ok _ =>
        (.error spaceErr, .spacesDelete space.guid :: .applicationsList space.guid :: deleted.2)

/-- The optional quota-name filter `recreateSpace` puts on its quota query:
`spaceQuotaListOptions.Names.EqualTo` is called only when
`options.SandboxQuotaName` is non-empty. -/
def quotaNameFilter (options : Options) : Option String :=
  if options.sandboxQuotaName == "" then none else some options.sandboxQuotaName

/-- Go `recreateSpace`: build a create request carrying the destroyed space's
name and relationships with the quota relationship cleared, resolve the space
quota for the organization (failing fast before any create), create the new
space, then apply the resolved quota to the new space's guid.  Each failure
is wrapped with `fmt.Errorf(..., %w)` and returned. -/
def recreateSpace (env : Env) (options : Options) (organization : Organization)
    (details : SpaceDetails) : Except Err Space × List Call :=
  let spaceRequest : SpaceCreate :=
    { name := details.space.name
      relationships := { details.space.relationships with quota := none } }
  match env.spaceQuotasSingle organization.guid (quotaNameFilter options) with
  | .error e =>
    (.error (.wrap ("error finding quota " ++ options.sandboxQuotaName ++ " for space " ++
        details.space.name ++ " in org " ++ organization.name) e),
      [.spaceQuotasSingle organization.guid (quotaNameFilter options)])
  | .ok spaceQuota =>
    match env.spacesCreate spaceRequest with
    | .error e =>
      (.error (.wrap ("error creating space " ++ details.space.name ++ " in org " ++
          organization.name) e),
        [.spaceQuotasSingle organization.guid (quotaNameFilter options),
          .spacesCreate spaceRequest])
    | .ok space =>
      match env.spaceQuotasApply spaceQuota.guid [space.guid] with
      | .error e =>
        (.error (.wrap ("error applying space quota " ++ options.sandboxQuotaName ++
            " to space " ++ details.space.name) e),
          [.spaceQuotasSingle organization.guid (quotaNameFilter options),
            .spacesCreate spaceRequest,
            .spaceQuotasApply spaceQuota.guid [space.guid]])
      | .ok _ =>
        (.ok space,
          [.spaceQuotasSingle organization.guid (quotaNameFilter options),
            .spacesCreate spaceRequest,
            .spaceQuotasApply spaceQuota.guid [space.guid]])

/-- The role-creation loop of `recreateSpaceDevsAndManagers` for one bucket of
users with a fixed role type: create each role, stopping at the first
failure.  The created role value is discarded by the Go code, so the response
is modelled as `Unit`. -/
def createRolesLoop (env : Env) (spaceGUID : String) (roleType : SpaceRoleType) :
    List spaceUser → Except Err Unit × List Call
  | [] => (.ok (), [])
  | user :: rest =>
    match env.createSpaceRole spaceGUID user.guid roleType with
    | .error e => (.error e, [.createSpaceRole spaceGUID user.guid roleType])
    | .ok _ =>
      let next := createRolesLoop env spaceGUID roleType rest
      (next.1, .createSpaceRole spaceGUID user.guid roleType :: next.2)

/-- Go `recreateSpaceDevsAndManagers`: create a developer role on the space
for each snapshotted developer, then a manager role for each snapshotted
manager, surfacing the first failure. -/
def recreateSpaceDevsAndManagers (env : Env) (spaceGUID : String)
    (developers managers : List spaceUser) : Except Err Unit × List Call :=
  let devs := createRolesLoop env spaceGUID .developer developers
  match devs.1 with
  | .error e => (.error e, devs.2)
  | .ok _ =>
    let mgrs := createRolesLoop env spaceGUID .manager managers
    (mgrs.1, devs.2 ++ mgrs.2)

/-- Modelled from the spec: `waitForSpaceDeletion`, the completion-tracking
step, is not among the sources under verification — only its tests are.  Per
spec sections 4.3 and 7 it fails with the distinguished
`NoSpaceDeleteJobGUIDError` when the destroy call returned no job identifier,
without attempting any poll request; otherwise it polls the deletion job to
completion and surfaces the poll outcome. -/
def waitForSpaceDeletion (env : Env) (deleteJobGUID : String) :
    Except Err Unit × List Call :=
  if deleteJobGUID == "" then
    (.error .noSpaceDeleteJobGUID, [])
  else
    (env.jobsPollComplete deleteJobGUID, [.jobsPollComplete deleteJobGUID])

/-- Go `listRecipients`: the usernames of the space users that are currently
recognized organization members (present in `userGUIDs`), each validated as a
mail address; a malformed username is a hard error.  `mail.ParseAddress` is
the external mail library's validator and is passed in as a function.  The Go
loop is written as structural recursion preserving iteration order. -/
def listRecipients (parseAddress : String → Except Err Unit)
    (userGUIDs : List String) : List User → Except Err (List String)
  | [] => .ok []
  | user :: rest =>
    if userGUIDs.contains user.guid then
      match parseAddress user.username with
      | .error e => .error e
      | .ok _ =>
        match listRecipients parseAddress userGUIDs rest with
        | .error e => .error e
        | .ok addresses => .ok (user.username :: addresses)
    else
      listRecipients parseAddress userGUIDs rest

/-- One user of the cache-filling scan in the username resolution of
`listSpaceDevsAndManagers`: on a guid match, record the user's name in the
cache and take it as the current resolution (the last match wins). -/
def scanStep (guid : String) (acc : String × (String → String)) (su : User) :
    String × (String → String) :=
  if su.guid == guid then
    (su.username, fun g => if g == guid then su.username else acc.2 g)
  else acc

/-- The username-resolution step of `listSpaceDevsAndManagers` for one role's
user guid: read the lazily built `usernamesMap` cache (a read of a missing
key yields `""`, like a Go map read); on a miss, scan `spaceUsers`, filling
the cache. -/
def resolveUsername (spaceUsers : List User) (guid : String)
    (cache : String → String) : String × (String → String) :=
  let username := cache guid
  if username == "" then
    spaceUsers.foldl (scanStep guid) ("", cache)
  else
    (username, cache)

/-- The loop body of `listSpaceDevsAndManagers`, one role at a time, threading
the developer and manager buckets and the username cache: skip roles whose
user is not a recognized organization member, resolve the username (skipping
the role with a diagnostic when resolution yields `""`), then bucket by the
role type string. -/
def rolesLoop (userGUIDs : List String) (spaceUsers : List User) :
    List Role → List spaceUser → List spaceUser → (String → String) →
      List spaceUser × List spaceUser
  | [], developers, managers, _ => (developers, managers)
  | role :: rest, developers, managers, cache =>
    if userGUIDs.contains role.userGUID then
      let r := resolveUsername spaceUsers role.userGUID cache
      if r.1 == "" then
        rolesLoop userGUIDs spaceUsers rest developers managers r.2
      else if role.type == SpaceRoleType.developer.str then
        rolesLoop userGUIDs spaceUsers rest
          (developers ++ [⟨role.userGUID, r.1⟩]) managers r.2
      else if role.type == SpaceRoleType.manager.str then
        rolesLoop userGUIDs spaceUsers rest
          developers (managers ++ [⟨role.userGUID, r.1⟩]) r.2
      else
        rolesLoop userGUIDs spaceUsers rest developers managers r.2
    else
      rolesLoop userGUIDs spaceUsers rest developers managers cache

/-- Go `listSpaceDevsAndManagers`: bucket the space's role bindings into
developers and managers, keeping only roles of recognized organization
members whose username resolves to a non-empty string.  The initial cache is
the nil Go map, every read of which yields `""`. -/
def listSpaceDevsAndManagers (userGUIDs : List String) (spaceRoles : List Role)
    (spaceUsers : List User) : List spaceUser × List spaceUser :=
  rolesLoop userGUIDs spaceUsers spaceRoles [] [] (fun _ => "")

/-- The plain last-match fold underlying the username scan, from a general
seed (spec-side characterization). -/
def lastFrom (guid : String) (a : String) (spaceUsers : List User) : String :=
  spaceUsers.foldl (fun acc su => if su.guid == guid then su.username else acc) a

/-- The username the scan resolves for a guid: the last matching space user's
name, `""` when none matches (spec-side characterization). -/
def lastUsername (spaceUsers : List User) (guid : String) : String :=
  lastFrom guid "" spaceUsers

/-- The coherence invariant of the lazily built username cache: every entry is
either unset (`""`) or the resolved last-match username of its key. -/
def cacheOk (spaceUsers : List User) (cache : String → String) : Prop :=
  ∀ g, cache g = "" ∨ cache g = lastUsername spaceUsers g

/-- Does a role contribute an entry of the given role type to the output of
`listSpaceDevsAndManagers`?  (spec-side characterization) -/
def roleKept (userGUIDs : List String) (spaceUsers : List User)
    (t : SpaceRoleType) (role : Role) : Bool :=
  userGUIDs.contains role.userGUID &&
    !(lastUsername spaceUsers role.userGUID == "") && role.type == t.str

/-- The entries one bucket of `listSpaceDevsAndManagers` receives, in role
order (spec-side characterization). -/
def keptEntries (userGUIDs : List String) (spaceUsers : List User)
    (t : SpaceRoleType) (spaceRoles : List Role) : List spaceUser :=
  (spaceRoles.filter (roleKept userGUIDs spaceUsers t)).map
    (fun role => ⟨role.userGUID, lastUsername spaceUsers role.userGUID⟩)

/-- Concrete organization for the closed witness statements. -/
def orgW : Organization := { guid := "org-1", name := "sandbox-org-1" }

/-- Concrete space (with a quota relationship, so recreation must strip it). -/
def spaceW : Space :=
  { guid := "space-1-guid", name := "space-1"
    relationships :=
      { organization := some ⟨"org-1"⟩, quota := some ⟨"quota-1-guid"⟩ } }

/-- Concrete space details for the recreation witnesses. -/
def detailsW : SpaceDetails := { timestamp := 0, space := spaceW }

/-- Concrete options for the recreation witnesses. -/
def optionsW : Options :=
  { notifyDays := 25, purgeDays := 30, disablePurge := false
    sandboxQuotaName := "quota-1" }

/-- Concrete space owning no resources. -/
def spaceEmptyW : Space :=
  { guid := "space-2-guid", name := "space-2"
    relationships := { organization := some ⟨"org-1"⟩, quota := none } }

/-- Concrete options with purge disabled. -/
def optionsDisabledW : Options :=
  { notifyDays := 25, purgeDays := 30, disablePurge := true
    sandboxQuotaName := "quota-1" }

/-- Concrete app owned by `spaceW`. -/
def appW : App :=
  { guid := "app-1", spaceGUID := "space-1-guid", createdAt := day * 5 + 3600 }

/-- Concrete service instance owned by `spaceW`. -/
def instanceW : ServiceInstance :=
  { guid := "si-1", spaceGUID := "space-1-guid", createdAt := day * 7 }

/-- An environment whose operations all succeed, for concrete runs. -/
def envOk : Env :=
  { spacesDelete := fun _ => .ok "delete-space-1"
    applicationsList := fun _ => .ok []
    applicationsDelete := fun _ => .ok ""
    spaceQuotasSingle := fun _ _ => .ok { guid := "quota-guid-1", name := "quota-1" }
    spacesCreate := fun r =>
      .ok { guid := "new-space-1-guid", name := r.name, relationships := r.relationships }
    spaceQuotasApply := fun _ spaceGUIDs => .ok spaceGUIDs
    createSpaceRole := fun _ _ _ => .ok ()
    jobsPollComplete := fun _ => .ok () }

/-- Concrete space user for the role-snapshot witnesses. -/
def userW : User := { guid := "user-1", username := "foo@bar.gov" }

/-- Concrete role binding with a non-developer, non-manager type. -/
def auditorRoleW : Role := { type := "space_auditor", userGUID := "user-1" }

/-- Concrete manager role binding. -/
def managerRoleW : Role := { type := "space_manager", userGUID := "user-1" }

/-- Concrete developer role binding bound to a non-member user. -/
def strangerRoleW : Role := { type := "space_developer", userGUID := "user-9" }

/-- Concrete space user that is not a recognized organization member. -/
def strangerW : User := { guid := "user-9", username := "gone@bar.gov" }

/-- Concrete snapshotted manager for the role-recreation witnesses. -/
def managerW : spaceUser := { guid := "user-1", username := "foo@bar.gov" }

/-- Concrete snapshotted developer for the role-recreation witnesses. -/
def developerW : spaceUser := { guid := "user-2", username := "foo2@bar.gov" }

/-- A second concrete snapshotted developer. -/
def developer2W : spaceUser := { guid := "user-3", username := "foo3@bar.gov" }

/-- The space `envOk` returns from the create call issued for `detailsW`. -/
def newSpaceW : Space :=
  { guid := "new-space-1-guid", name := "space-1"
    relationships := { organization := some ⟨"org-1"⟩, quota := none } }

/-- An environment whose quota lookup fails. -/
def envQuotaErr : Env :=
  { envOk with spaceQuotasSingle := fun _ _ => .error (.base "quota missing") }

/-- An environment where the space destroy fails but the fallback cleanup
(listing one app and deleting it) succeeds. -/
def envDestroyFails : Env :=
  { envOk with
    spacesDelete := fun _ => .error (.base "destroy failed")
    applicationsList := fun _ => .ok [appW] }

/-- An environment where the space destroy fails and the fallback listing of
apps fails as well. -/
def envCleanupFails : Env :=
  { envOk with
    spacesDelete := fun _ => .error (.base "destroy failed")
    applicationsList := fun _ => .error (.base "list failed") }

/-- The two folds of `letFirstResource` over the grouped apps and instances
are one fold of `firstStep` over the owned creation timestamps. -/
theorem letFirstResource_eq_foldl (space : Space) (apps : List App)
    (instances : List ServiceInstance) :
    letFirstResource space apps instances =
      (ownedCreationTimes space apps instances).foldl firstStep 0 := by
  simp [letFirstResource, ownedCreationTimes, List.foldl_append, List.foldl_map]

/-- Over positive timestamps and from a positive seed, the sentinel scan of
`letFirstResource` is a plain minimum fold. -/
theorem foldl_firstStep_pos (l : List Int) (hl : ∀ t ∈ l, 0 < t) :
    ∀ init : Int, 0 < init → l.foldl firstStep init = l.foldl min init := by
  induction l with
  | nil => intro init _; rfl
  | cons t ts ih =>
    intro init hinit
    have ht : 0 < t := hl t (List.mem_cons_self t ts)
    have hts : ∀ x ∈ ts, 0 < x := fun x hx => hl x (List.mem_cons_of_mem _ hx)
    have hstep : firstStep init t = min init t := by
      unfold firstStep
      have h0 : (init == 0) = false := by
        simp only [beq_eq_false_iff_ne, ne_eq]
        omega
      rw [h0, Bool.false_or, min_def]
      simp only [decide_eq_true_eq]
      by_cases h : t < init
      · rw [if_pos h, if_neg (by omega)]
      · rw [if_neg h, if_pos (by omega)]
    rw [List.foldl_cons, List.foldl_cons, hstep]
    exact ih hts (min init t) (lt_min hinit ht)

/-- Over positive timestamps, the sentinel scan of `letFirstResource` computes
the minimum owned creation timestamp (`0` when there is none). -/
theorem foldl_firstStep_min? (l : List Int) (hl : ∀ t ∈ l, 0 < t) :
    l.foldl firstStep 0 = (l.min?).getD 0 := by
  cases l with
  | nil => rfl
  | cons t ts =>
    have ht : 0 < t := hl t (List.mem_cons_self t ts)
    have hts : ∀ x ∈ ts, 0 < x := fun x hx => hl x (List.mem_cons_of_mem _ hx)
    have hfirst : firstStep 0 t = t := by
      unfold firstStep
      rw [if_pos]
      simp
    rw [List.foldl_cons, hfirst, foldl_firstStep_pos ts hts t ht]
    rfl

/-- Every entry of either output list of `listPurgeSpaces` records an input
space that owns at least one resource, annotated with exactly the
classification timestamp computed for that space. -/
theorem mem_listPurgeSpaces (spaces : List Space) (apps : List App)
    (instances : List ServiceInstance) (opts : Options) (now timeStartsAt : Int)
    (d : SpaceDetails)
    (hd : d ∈ (listPurgeSpaces spaces apps instances opts now timeStartsAt).1 ∨
          d ∈ (listPurgeSpaces spaces apps instances opts now timeStartsAt).2) :
    d.space ∈ spaces ∧ letFirstResource d.space apps instances ≠ 0 ∧
      d.timestamp = classificationTimestamp d.space apps instances timeStartsAt := by
  induction spaces with
  | nil => simp [listPurgeSpaces] at hd
  | cons space rest ih =>
    simp only [listPurgeSpaces] at hd
    by_cases h0 : (letFirstResource space apps instances == 0) = true
    · rw [if_pos h0] at hd
      obtain ⟨h1, h2, h3⟩ := ih hd
      exact ⟨List.mem_cons_of_mem _ h1, h2, h3⟩
    · rw [if_neg h0] at hd
      have hfr : letFirstResource space apps instances ≠ 0 := by simpa using h0
      generalize hgen : truncateDay (if timeStartsAt > letFirstResource space apps instances
        then timeStartsAt else letFirstResource space apps instances) = ts at hd
      have hcl : classificationTimestamp space apps instances timeStartsAt = ts := by
        simp only [classificationTimestamp]
        exact hgen
      split at hd
      · dsimp only at hd
        rcases hd with h | h
        · obtain ⟨h1, h2, h3⟩ := ih (Or.inl h)
          exact ⟨List.mem_cons_of_mem _ h1, h2, h3⟩
        · rcases List.mem_cons.mp h with h' | h'
          · subst h'
            exact ⟨List.mem_cons_self _ _, hfr, hcl.symm⟩
          · obtain ⟨h1, h2, h3⟩ := ih (Or.inr h')
            exact ⟨List.mem_cons_of_mem _ h1, h2, h3⟩
      · split at hd
        · dsimp only at hd
          rcases hd with h | h
          · rcases List.mem_cons.mp h with h' | h'
            · subst h'
              exact ⟨List.mem_cons_self _ _, hfr, hcl.symm⟩
            · obtain ⟨h1, h2, h3⟩ := ih (Or.inl h')
              exact ⟨List.mem_cons_of_mem _ h1, h2, h3⟩
          · obtain ⟨h1, h2, h3⟩ := ih (Or.inr h)
            exact ⟨List.mem_cons_of_mem _ h1, h2, h3⟩
        · obtain ⟨h1, h2, h3⟩ := ih hd
          exact ⟨List.mem_cons_of_mem _ h1, h2, h3⟩

/-- A Go-style clamp `if a > b then a else b` is the maximum. -/
theorem if_gt_eq_max (a b : Int) : (if a > b then a else b) = max a b := by
  rw [max_def]
  by_cases h : a > b
  · rw [if_pos h, if_neg (by omega)]
  · rw [if_neg h, if_pos (by omega)]

/-- C1: for every space that owns at least one app or service instance (their
creation timestamps being genuine, i.e. after the zero time), the
classification timestamp `listPurgeSpaces` computes — the one it attaches to
every notify and purge entry — equals `max(epoch, min(creation timestamps of
the owned apps and instances))` truncated to a day boundary. -/
theorem classification_timestamp_max_min (spaces : List Space) (apps : List App)
    (instances : List ServiceInstance) (opts : Options) (now timeStartsAt : Int)
    (space : Space)
    (happs : ∀ a ∈ apps, 0 < a.createdAt)
    (hinstances : ∀ i ∈ instances, 0 < i.createdAt)
    (howns : ownedCreationTimes space apps instances ≠ []) :
    (∃ m, (ownedCreationTimes space apps instances).min? = some m ∧
      classificationTimestamp space apps instances timeStartsAt =
        truncateDay (max timeStartsAt m)) ∧
    (∀ d ∈ (listPurgeSpaces spaces apps instances opts now timeStartsAt).1,
      d.timestamp = classificationTimestamp d.space apps instances timeStartsAt) ∧
    (∀ d ∈ (listPurgeSpaces spaces apps instances opts now timeStartsAt).2,
      d.timestamp = classificationTimestamp d.space apps instances timeStartsAt) := by
  refine ⟨?_, ?_, ?_⟩
  · have hpos : ∀ t ∈ ownedCreationTimes space apps instances, 0 < t := by
      intro t ht
      simp only [ownedCreationTimes, List.mem_append, List.mem_map, List.mem_filter] at ht
      rcases ht with ⟨a, ⟨ha, _⟩, rfl⟩ | ⟨i, ⟨hi, _⟩, rfl⟩
      · exact happs a ha
      · exact hinstances i hi
    have hfold : letFirstResource space apps instances =
        ((ownedCreationTimes space apps instances).min?).getD 0 := by
      rw [letFirstResource_eq_foldl]
      exact foldl_firstStep_min? _ hpos
    cases hl : ownedCreationTimes space apps instances with
    | nil => exact absurd hl howns
    | cons t ts =>
      refine ⟨ts.foldl min t, rfl, ?_⟩
      have hm : letFirstResource space apps instances = ts.foldl min t := by
        rw [hfold, hl]
        rfl
      simp only [classificationTimestamp, hm, if_gt_eq_max]
  · intro d hd
    exact (mem_listPurgeSpaces spaces apps instances opts now timeStartsAt d (Or.inl hd)).2.2
  · intro d hd
    exact (mem_listPurgeSpaces spaces apps instances opts now timeStartsAt d (Or.inr hd)).2.2

/-- Witness for C1 at a concrete organization snapshot. -/
theorem classification_timestamp_max_min_witness :
    ((∀ a ∈ [appW], 0 < a.createdAt) ∧ (∀ i ∈ [instanceW], 0 < i.createdAt) ∧
      ownedCreationTimes spaceW [appW] [instanceW] ≠ []) ∧
    ((∃ m, (ownedCreationTimes spaceW [appW] [instanceW]).min? = some m ∧
      classificationTimestamp spaceW [appW] [instanceW] (day * 2) =
        truncateDay (max (day * 2) m)) ∧
    (∀ d ∈ (listPurgeSpaces [spaceW] [appW] [instanceW] optionsW (day * 40) (day * 2)).1,
      d.timestamp = classificationTimestamp d.space [appW] [instanceW] (day * 2)) ∧
    (∀ d ∈ (listPurgeSpaces [spaceW] [appW] [instanceW] optionsW (day * 40) (day * 2)).2,
      d.timestamp = classificationTimestamp d.space [appW] [instanceW] (day * 2))) :=
  ⟨⟨by decide, by decide, by decide⟩,
    classification_timestamp_max_min [spaceW] [appW] [instanceW] optionsW (day * 40) (day * 2)
      spaceW (by decide) (by decide) (by decide)⟩

/-- C7: a space that owns no apps and no service instances appears in neither
the notify list nor the purge list produced by `listPurgeSpaces`. -/
theorem no_resources_never_listed (spaces : List Space) (apps : List App)
    (instances : List ServiceInstance) (opts : Options) (now timeStartsAt : Int)
    (s : Space)
    (ha : ∀ a ∈ apps, a.spaceGUID ≠ s.guid)
    (hi : ∀ i ∈ instances, i.spaceGUID ≠ s.guid) :
    (∀ d ∈ (listPurgeSpaces spaces apps instances opts now timeStartsAt).1,
      d.space.guid ≠ s.guid) ∧
    (∀ d ∈ (listPurgeSpaces spaces apps instances opts now timeStartsAt).2,
      d.space.guid ≠ s.guid) := by
  have key : ∀ d : SpaceDetails, d.space.guid = s.guid →
      letFirstResource d.space apps instances = 0 := by
    intro d hguid
    rw [letFirstResource_eq_foldl]
    have happs0 : apps.filter (fun a => a.spaceGUID == d.space.guid) = [] := by
      rw [List.filter_eq_nil_iff]
      intro a haa h
      exact ha a haa ((beq_iff_eq.mp h).trans hguid)
    have hinst0 : instances.filter (fun i => i.spaceGUID == d.space.guid) = [] := by
      rw [List.filter_eq_nil_iff]
      intro i hii h
      exact hi i hii ((beq_iff_eq.mp h).trans hguid)
    simp [ownedCreationTimes, happs0, hinst0]
  constructor
  · intro d hd hguid
    exact (mem_listPurgeSpaces spaces apps instances opts now timeStartsAt d
      (Or.inl hd)).2.1 (key d hguid)
  · intro d hd hguid
    exact (mem_listPurgeSpaces spaces apps instances opts now timeStartsAt d
      (Or.inr hd)).2.1 (key d hguid)

/-- Witness for C7 at a concrete organization snapshot containing an empty
space next to a populated one. -/
theorem no_resources_never_listed_witness :
    ((∀ a ∈ [appW], a.spaceGUID ≠ spaceEmptyW.guid) ∧
      (∀ i ∈ [instanceW], i.spaceGUID ≠ spaceEmptyW.guid)) ∧
    ((∀ d ∈ (listPurgeSpaces [spaceW, spaceEmptyW] [appW] [instanceW] optionsW
        (day * 40) 0).1, d.space.guid ≠ spaceEmptyW.guid) ∧
    (∀ d ∈ (listPurgeSpaces [spaceW, spaceEmptyW] [appW] [instanceW] optionsW
        (day * 40) 0).2, d.space.guid ≠ spaceEmptyW.guid)) :=
  ⟨⟨by decide, by decide⟩,
    no_resources_never_listed [spaceW, spaceEmptyW] [appW] [instanceW] optionsW
      (day * 40) 0 spaceEmptyW (by decide) (by decide)⟩

/-- With purge disabled, no space is ever purge-classified. -/
theorem purge_list_empty_of_disable (spaces : List Space) (apps : List App)
    (instances : List ServiceInstance) (opts : Options) (now timeStartsAt : Int)
    (hdisable : opts.disablePurge = true) :
    (listPurgeSpaces spaces apps instances opts now timeStartsAt).2 = [] := by
  induction spaces with
  | nil => rfl
  | cons space rest ih =>
    simp only [listPurgeSpaces, hdisable, Bool.not_true, Bool.false_and, Bool.false_eq_true,
      if_false]
    repeat' split
    all_goals exact ih

/-- With purge disabled, a space owning resources whose day delta reaches the
notify threshold is notify-classified. -/
theorem notify_mem_of_disable (spaces : List Space) (apps : List App)
    (instances : List ServiceInstance) (opts : Options) (now timeStartsAt : Int)
    (hdisable : opts.disablePurge = true) :
    ∀ s ∈ spaces, letFirstResource s apps instances ≠ 0 →
      opts.notifyDays ≤ classificationDelta s apps instances timeStartsAt now →
      (⟨classificationTimestamp s apps instances timeStartsAt, s⟩ : SpaceDetails) ∈
        (listPurgeSpaces spaces apps instances opts now timeStartsAt).1 := by
  induction spaces with
  | nil => intro s hs; simp at hs
  | cons space rest ih =>
    intro s hs hfr hdelta
    simp only [listPurgeSpaces, hdisable, Bool.not_true, Bool.false_and, Bool.false_eq_true,
      if_false]
    rcases List.mem_cons.mp hs with h | h
    · subst h
      rw [if_neg (by simpa using hfr)]
      have hcond : Int.tdiv (now - truncateDay (if timeStartsAt > letFirstResource s apps instances
          then timeStartsAt else letFirstResource s apps instances)) day ≥ opts.notifyDays :=
        hdelta
      rw [if_pos hcond]
      exact List.mem_cons_self _ _
    · have hmem := ih s h hfr hdelta
      repeat' split
      all_goals first
        | exact hmem
        | exact List.mem_cons_of_mem _ hmem

/-- C6: with `disable-purge` set, the purge list is empty regardless of space
age, and any space (owning at least one resource) whose day delta reaches the
purge threshold is still notify-classified whenever that same delta also
reaches the notify threshold. -/
theorem disable_purge_empty_and_notify (spaces : List Space) (apps : List App)
    (instances : List ServiceInstance) (opts : Options) (now timeStartsAt : Int)
    (hdisable : opts.disablePurge = true) :
    (listPurgeSpaces spaces apps instances opts now timeStartsAt).2 = [] ∧
    ∀ s ∈ spaces, letFirstResource s apps instances ≠ 0 →
      opts.purgeDays ≤ classificationDelta s apps instances timeStartsAt now →
      opts.notifyDays ≤ classificationDelta s apps instances timeStartsAt now →
      (⟨classificationTimestamp s apps instances timeStartsAt, s⟩ : SpaceDetails) ∈
        (listPurgeSpaces spaces apps instances opts now timeStartsAt).1 :=
  ⟨purge_list_empty_of_disable spaces apps instances opts now timeStartsAt hdisable,
    fun s hs hfr _ hnotify =>
      notify_mem_of_disable spaces apps instances opts now timeStartsAt hdisable s hs hfr hnotify⟩

/-- Witness for C6: a space 35 day-deltas old against thresholds 30 (purge)
and 25 (notify), with purge disabled. -/
theorem disable_purge_empty_and_notify_witness :
    optionsDisabledW.disablePurge = true ∧
    (listPurgeSpaces [spaceW] [appW] [] optionsDisabledW (day * 40) 0).2 = [] ∧
    (⟨classificationTimestamp spaceW [appW] [] 0, spaceW⟩ : SpaceDetails) ∈
      (listPurgeSpaces [spaceW] [appW] [] optionsDisabledW (day * 40) 0).1 :=
  ⟨rfl,
    (disable_purge_empty_and_notify [spaceW] [appW] [] optionsDisabledW (day * 40) 0 rfl).1,
    (disable_purge_empty_and_notify [spaceW] [appW] [] optionsDisabledW (day * 40) 0 rfl).2
      spaceW (by decide) (by decide) (by decide) (by decide)⟩

/-- When every per-app delete succeeds, the fallback deletion loop of
`purgeSpace` succeeds and issues one delete call per listed app. -/
theorem deleteAppsLoop_ok (env : Env) (apps : List App)
    (h : ∀ a ∈ apps, ∃ r, env.applicationsDelete a.guid = .ok r) :
    deleteAppsLoop env apps =
      (.ok (), apps.map (fun a => Call.applicationsDelete a.guid)) := by
  induction apps with
  | nil => rfl
  | cons app rest ih =>
    obtain ⟨r, hr⟩ := h app (List.mem_cons_self _ _)
    have hrest := ih (fun a ha => h a (List.mem_cons_of_mem _ ha))
    simp only [deleteAppsLoop, hr, hrest, List.map_cons]

/-- C2 counterexample: with the destroy call failing with one error and the
fallback app listing failing with another, `purgeSpace` surfaces the fallback
listing error to its caller, not the original destroy error. -/
theorem purgeSpace_cleanup_error_overrides :
    envCleanupFails.spacesDelete spaceW.guid = .error (.base "destroy failed") ∧
    (purgeSpace envCleanupFails spaceW).1 = .error (.base "list failed") ∧
    (Err.base "list failed" : Err) ≠ .base "destroy failed" :=
  ⟨rfl, rfl, by decide⟩

/-- C2 amended: when the destroy call fails and the compensating cleanup
(listing the space's apps and deleting each one) succeeds throughout,
`purgeSpace` returns the original destroy error; when the cleanup itself
fails, that cleanup error is returned instead. -/
theorem purgeSpace_original_error_when_cleanup_ok (env : Env) (space : Space)
    (spaceErr : Err) (apps : List App)
    (hdel : env.spacesDelete space.guid = .error spaceErr)
    (hlist : env.applicationsList space.guid = .ok apps)
    (hdeletes : ∀ a ∈ apps, ∃ r, env.applicationsDelete a.guid = .ok r) :
    (purgeSpace env space).1 = .error spaceErr := by
  simp only [purgeSpace, hdel, hlist, deleteAppsLoop_ok env apps hdeletes]

/-- Witness for the amended C2 at a concrete environment where destroy fails
and the cleanup of one app succeeds. -/
theorem purgeSpace_original_error_when_cleanup_ok_witness :
    (envDestroyFails.spacesDelete spaceW.guid = .error (.base "destroy failed") ∧
      envDestroyFails.applicationsList spaceW.guid = .ok [appW] ∧
      (∀ a ∈ [appW], ∃ r, envDestroyFails.applicationsDelete a.guid = .ok r)) ∧
    (purgeSpace envDestroyFails spaceW).1 = .error (.base "destroy failed") :=
  ⟨⟨rfl, rfl, fun _ _ => ⟨"", rfl⟩⟩,
    purgeSpace_original_error_when_cleanup_ok envDestroyFails spaceW (.base "destroy failed")
      [appW] rfl rfl (fun _ _ => ⟨"", rfl⟩)⟩

/-- `Err.is` recognizes an error it wraps. -/
theorem err_is_wrap (msg : String) (e : Err) : Err.is (.wrap msg e) e = true := by
  have hself : ∀ e' : Err, Err.is e' e' = true := by
    intro e'
    cases e' <;> simp [Err.is]
  simp [Err.is, hself]

/-- C3: if the space-quota lookup fails, `recreateSpace` returns that error
(wrapped, so `errors.Is` still finds it) and issues no space-create call in
that cycle — the quota is resolved strictly before the space is created. -/
theorem recreateSpace_quota_error_fail_fast (env : Env) (options : Options)
    (organization : Organization) (details : SpaceDetails) (e : Err)
    (h : env.spaceQuotasSingle organization.guid (quotaNameFilter options) = .error e) :
    (recreateSpace env options organization details).1 =
      .error (.wrap ("error finding quota " ++ options.sandboxQuotaName ++ " for space " ++
        details.space.name ++ " in org " ++ organization.name) e) ∧
    Err.is (.wrap ("error finding quota " ++ options.sandboxQuotaName ++ " for space " ++
      details.space.name ++ " in org " ++ organization.name) e) e = true ∧
    ∀ request, Call.spacesCreate request ∉ (recreateSpace env options organization details).2 := by
  refine ⟨?_, err_is_wrap _ e, ?_⟩
  · simp only [recreateSpace, h]
  · intro request
    simp only [recreateSpace, h]
    simp

/-- Witness for C3 at a concrete environment whose quota lookup fails. -/
theorem recreateSpace_quota_error_fail_fast_witness :
    envQuotaErr.spaceQuotasSingle orgW.guid (quotaNameFilter optionsW) =
      .error (.base "quota missing") ∧
    ((recreateSpace envQuotaErr optionsW orgW detailsW).1 =
      .error (.wrap ("error finding quota " ++ optionsW.sandboxQuotaName ++ " for space " ++
        detailsW.space.name ++ " in org " ++ orgW.name) (.base "quota missing")) ∧
    Err.is (.wrap ("error finding quota " ++ optionsW.sandboxQuotaName ++ " for space " ++
      detailsW.space.name ++ " in org " ++ orgW.name) (.base "quota missing"))
      (.base "quota missing") = true ∧
    ∀ request, Call.spacesCreate request ∉
      (recreateSpace envQuotaErr optionsW orgW detailsW).2) :=
  ⟨rfl, recreateSpace_quota_error_fail_fast envQuotaErr optionsW orgW detailsW
    (.base "quota missing") rfl⟩

/-- C8: on the success path, the create request `recreateSpace` issues carries
the destroyed space's name and organization relationship unchanged and a nil
quota relationship, and the resolved quota is applied to the new space's guid
by a separate call strictly after the create. -/
theorem recreateSpace_request_and_quota_apply (env : Env) (options : Options)
    (organization : Organization) (details : SpaceDetails) (q : SpaceQuota) (s : Space)
    (applied : List String)
    (hq : env.spaceQuotasSingle organization.guid (quotaNameFilter options) = .ok q)
    (hc : env.spacesCreate
      { name := details.space.name
        relationships := { organization := details.space.relationships.organization
                           quota := none } } = .ok s)
    (ha : env.spaceQuotasApply q.guid [s.guid] = .ok applied) :
    (recreateSpace env options organization details).1 = .ok s ∧
    (recreateSpace env options organization details).2 =
      [.spaceQuotasSingle organization.guid (quotaNameFilter options),
        .spacesCreate { name := details.space.name
                        relationships := { organization := details.space.relationships.organization
                                           quota := none } },
        .spaceQuotasApply q.guid [s.guid]] := by
  simp [recreateSpace, hq, hc, ha]

/-- Witness for C8 at a concrete environment and a space carrying a quota
relationship that recreation must strip. -/
theorem recreateSpace_request_and_quota_apply_witness :
    (envOk.spaceQuotasSingle orgW.guid (quotaNameFilter optionsW) =
        .ok { guid := "quota-guid-1", name := "quota-1" } ∧
      envOk.spacesCreate
        { name := detailsW.space.name
          relationships := { organization := detailsW.space.relationships.organization
                             quota := none } } = .ok newSpaceW ∧
      envOk.spaceQuotasApply "quota-guid-1" [newSpaceW.guid] = .ok [newSpaceW.guid]) ∧
    ((recreateSpace envOk optionsW orgW detailsW).1 = .ok newSpaceW ∧
      (recreateSpace envOk optionsW orgW detailsW).2 =
        [.spaceQuotasSingle orgW.guid (quotaNameFilter optionsW),
          .spacesCreate
            { name := detailsW.space.name
              relationships := { organization := detailsW.space.relationships.organization
                                 quota := none } },
          .spaceQuotasApply "quota-guid-1" [newSpaceW.guid]]) :=
  ⟨⟨rfl, rfl, rfl⟩,
    recreateSpace_request_and_quota_apply envOk optionsW orgW detailsW
      { guid := "quota-guid-1", name := "quota-1" } newSpaceW [newSpaceW.guid] rfl rfl rfl⟩

/-- When every role creation succeeds, the role-creation loop succeeds and
issues one create call per snapshotted user, in list order. -/
theorem createRolesLoop_ok (env : Env) (spaceGUID : String) (roleType : SpaceRoleType)
    (users : List spaceUser)
    (hok : ∀ s u k, env.createSpaceRole s u k = .ok ()) :
    createRolesLoop env spaceGUID roleType users =
      (.ok (), users.map (fun u => Call.createSpaceRole spaceGUID u.guid roleType)) := by
  induction users with
  | nil => rfl
  | cons u rest ih =>
    simp only [createRolesLoop, hok, ih, List.map_cons]

/-- C4: under an environment where every role creation succeeds, two
developer/manager snapshots that are permutations of each other (keeping each
user with its role kind, within and across the two buckets) make
`recreateSpaceDevsAndManagers` succeed with call traces that are permutations
of each other — the final binding set on the new space does not depend on
iteration order. -/
theorem recreateSpaceDevsAndManagers_perm_invariant (env : Env) (spaceGUID : String)
    (devs₁ mgrs₁ devs₂ mgrs₂ : List spaceUser)
    (hok : ∀ s u k, env.createSpaceRole s u k = .ok ())
    (hperm : (devs₁.map (fun u => (u, SpaceRoleType.developer)) ++
        mgrs₁.map (fun u => (u, SpaceRoleType.manager))).Perm
      (devs₂.map (fun u => (u, SpaceRoleType.developer)) ++
        mgrs₂.map (fun u => (u, SpaceRoleType.manager)))) :
    (recreateSpaceDevsAndManagers env spaceGUID devs₁ mgrs₁).1 = .ok () ∧
    (recreateSpaceDevsAndManagers env spaceGUID devs₂ mgrs₂).1 = .ok () ∧
    (recreateSpaceDevsAndManagers env spaceGUID devs₁ mgrs₁).2.Perm
      (recreateSpaceDevsAndManagers env spaceGUID devs₂ mgrs₂).2 := by
  have htrace : ∀ devs mgrs : List spaceUser,
      recreateSpaceDevsAndManagers env spaceGUID devs mgrs =
        (.ok (), (devs.map (fun u => (u, SpaceRoleType.developer)) ++
            mgrs.map (fun u => (u, SpaceRoleType.manager))).map
          (fun p => Call.createSpaceRole spaceGUID p.1.guid p.2)) := by
    intro devs mgrs
    simp only [recreateSpaceDevsAndManagers, createRolesLoop_ok env spaceGUID _ _ hok,
      List.map_append, List.map_map]
    rfl
  refine ⟨?_, ?_, ?_⟩
  · rw [htrace]
  · rw [htrace]
  · rw [htrace, htrace]
    exact hperm.map _

/-- Witness for C4: the two developers swapped between the two snapshots, the
manager unchanged. -/
theorem recreateSpaceDevsAndManagers_perm_invariant_witness :
    ((∀ s u k, envOk.createSpaceRole s u k = .ok ()) ∧
      (([developerW, developer2W].map (fun u => (u, SpaceRoleType.developer)) ++
          [managerW].map (fun u => (u, SpaceRoleType.manager))).Perm
        ([developer2W, developerW].map (fun u => (u, SpaceRoleType.developer)) ++
          [managerW].map (fun u => (u, SpaceRoleType.manager))))) ∧
    ((recreateSpaceDevsAndManagers envOk "new-space-1-guid"
        [developerW, developer2W] [managerW]).1 = .ok () ∧
      (recreateSpaceDevsAndManagers envOk "new-space-1-guid"
        [developer2W, developerW] [managerW]).1 = .ok () ∧
      (recreateSpaceDevsAndManagers envOk "new-space-1-guid"
        [developerW, developer2W] [managerW]).2.Perm
        (recreateSpaceDevsAndManagers envOk "new-space-1-guid"
          [developer2W, developerW] [managerW]).2) :=
  ⟨⟨fun _ _ _ => rfl, by decide⟩,
    recreateSpaceDevsAndManagers_perm_invariant envOk "new-space-1-guid"
      [developerW, developer2W] [managerW] [developer2W, developerW] [managerW]
      (fun _ _ _ => rfl) (by decide)⟩

/-- C5: called with an empty job identifier, the completion-tracking step
fails with the `NoSpaceDeleteJobGUID` error and issues no poll request to the
Jobs collaborator. -/
theorem waitForSpaceDeletion_no_job_guid (env : Env) :
    waitForSpaceDeletion env "" = (.error .noSpaceDeleteJobGUID, []) := rfl

/-- The result component of the cache-filling scan is the plain last-match
fold. -/
theorem scan_fst (guid : String) (users : List User) :
    ∀ (a : String) (c : String → String),
      (users.foldl (scanStep guid) (a, c)).1 = lastFrom guid a users := by
  induction users with
  | nil => intro a c; rfl
  | cons su rest ih =>
    intro a c
    simp only [List.foldl_cons, scanStep, lastFrom]
    by_cases h : (su.guid == guid) = true
    · rw [if_pos h, if_pos h]
      exact ih su.username _
    · rw [if_neg h, if_neg h]
      exact ih a c

/-- The cache-filling scan leaves every entry other than the scanned guid
unchanged. -/
theorem scan_snd_ne (guid g : String) (hg : g ≠ guid) (users : List User) :
    ∀ (a : String) (c : String → String),
      (users.foldl (scanStep guid) (a, c)).2 g = c g := by
  have hgf : (g == guid) = false := by
    simp only [beq_eq_false_iff_ne, ne_eq]
    exact hg
  induction users with
  | nil => intro a c; rfl
  | cons su rest ih =>
    intro a c
    simp only [List.foldl_cons, scanStep]
    by_cases h : (su.guid == guid) = true
    · rw [if_pos h, ih su.username _]
      simp [hgf]
    · rw [if_neg h]
      exact ih a c

/-- After the cache-filling scan, the entry of the scanned guid is either
untouched (with the result still the seed) or equal to the scan's result. -/
theorem scan_snd_at (guid : String) (users : List User) :
    ∀ (a : String) (c : String → String),
      ((users.foldl (scanStep guid) (a, c)).2 guid = c guid ∧
        (users.foldl (scanStep guid) (a, c)).1 = a) ∨
      (users.foldl (scanStep guid) (a, c)).2 guid =
        (users.foldl (scanStep guid) (a, c)).1 := by
  induction users with
  | nil => intro a c; exact Or.inl ⟨rfl, rfl⟩
  | cons su rest ih =>
    intro a c
    simp only [List.foldl_cons, scanStep]
    by_cases h : (su.guid == guid) = true
    · rw [if_pos h]
      rcases ih su.username (fun g => if g == guid then su.username else (a, c).2 g) with
        ⟨h1, h2⟩ | h1
      · refine Or.inr ?_
        rw [h1, h2]
        simp
      · exact Or.inr h1
    · rw [if_neg h]
      exact ih a c

/-- On a coherent cache, username resolution returns the last-match
username. -/
theorem resolveUsername_fst (spaceUsers : List User) (guid : String)
    (cache : String → String) (hc : cacheOk spaceUsers cache) :
    (resolveUsername spaceUsers guid cache).1 = lastUsername spaceUsers guid := by
  unfold resolveUsername
  by_cases h : (cache guid == "") = true
  · rw [if_pos h]
    exact scan_fst guid spaceUsers "" cache
  · rw [if_neg h]
    rcases hc guid with h0 | h0
    · exact absurd (by simp [h0]) h
    · exact h0

/-- Username resolution preserves cache coherence. -/
theorem resolveUsername_snd (spaceUsers : List User) (guid : String)
    (cache : String → String) (hc : cacheOk spaceUsers cache) :
    cacheOk spaceUsers (resolveUsername spaceUsers guid cache).2 := by
  unfold resolveUsername
  by_cases h : (cache guid == "") = true
  · rw [if_pos h]
    intro g
    by_cases hg : g = guid
    · rw [hg]
      rcases scan_snd_at guid spaceUsers "" cache with ⟨h1, _⟩ | h1
      · rw [h1]
        exact Or.inl (by simpa using h)
      · rw [h1, scan_fst guid spaceUsers "" cache]
        exact Or.inr rfl
    · rw [scan_snd_ne guid g hg spaceUsers "" cache]
      exact hc g
  · rw [if_neg h]
    exact hc

/-- Unfolding `keptEntries` one role at a time. -/
theorem keptEntries_cons (userGUIDs : List String) (spaceUsers : List User)
    (t : SpaceRoleType) (role : Role) (rest : List Role) :
    keptEntries userGUIDs spaceUsers t (role :: rest) =
      if roleKept userGUIDs spaceUsers t role = true then
        ⟨role.userGUID, lastUsername spaceUsers role.userGUID⟩ ::
          keptEntries userGUIDs spaceUsers t rest
      else keptEntries userGUIDs spaceUsers t rest := by
  simp only [keptEntries, List.filter_cons]
  by_cases h : roleKept userGUIDs spaceUsers t role = true
  · rw [if_pos h, if_pos h, List.map_cons]
  · rw [if_neg h, if_neg h]

/-- The role loop of `listSpaceDevsAndManagers`, started from any buckets and
any coherent cache, appends exactly the kept entries of the remaining
roles. -/
theorem rolesLoop_eq (userGUIDs : List String) (spaceUsers : List User)
    (roles : List Role) :
    ∀ (developers managers : List spaceUser) (cache : String → String),
      cacheOk spaceUsers cache →
      rolesLoop userGUIDs spaceUsers roles developers managers cache =
        (developers ++ keptEntries userGUIDs spaceUsers .developer roles,
          managers ++ keptEntries userGUIDs spaceUsers .manager roles) := by
  induction roles with
  | nil =>
    intro devs mgrs cache hc
    simp [rolesLoop, keptEntries]
  | cons role rest ih =>
    intro devs mgrs cache hc
    simp only [rolesLoop]
    rw [keptEntries_cons, keptEntries_cons]
    by_cases hmem : (userGUIDs.contains role.userGUID) = true
    · rw [if_pos hmem]
      have hmemMem : role.userGUID ∈ userGUIDs := by simpa using hmem
      have hr1 := resolveUsername_fst spaceUsers role.userGUID cache hc
      have hr2 := resolveUsername_snd spaceUsers role.userGUID cache hc
      by_cases hu : ((resolveUsername spaceUsers role.userGUID cache).1 == "") = true
      · rw [if_pos hu, ih devs mgrs _ hr2]
        have hlast : (lastUsername spaceUsers role.userGUID == "") = true := by
          rw [← hr1]
          exact hu
        rw [if_neg (by simp [roleKept, hlast]), if_neg (by simp [roleKept, hlast])]
      · rw [if_neg hu]
        have hlastf : (lastUsername spaceUsers role.userGUID == "") = false := by
          rw [← hr1]
          simpa using hu
        by_cases hdev : (role.type == SpaceRoleType.developer.str) = true
        · have hihd := ih
            (devs ++ [(⟨role.userGUID, (resolveUsername spaceUsers role.userGUID cache).1⟩ : spaceUser)])
            mgrs (resolveUsername spaceUsers role.userGUID cache).2 hr2
          rw [if_pos hdev, hihd]
          have hmgrf : (role.type == SpaceRoleType.manager.str) = false := by
            rw [beq_iff_eq.mp hdev]
            decide
          rw [if_pos (by simp [roleKept, hmemMem, hlastf, hdev]),
            if_neg (by simp [roleKept, hmgrf])]
          rw [hr1]
          simp
        · by_cases hmgr : (role.type == SpaceRoleType.manager.str) = true
          · have hihm := ih devs
              (mgrs ++ [(⟨role.userGUID, (resolveUsername spaceUsers role.userGUID cache).1⟩ : spaceUser)])
              (resolveUsername spaceUsers role.userGUID cache).2 hr2
            rw [if_neg hdev, if_pos hmgr, hihm]
            have hdevf : (role.type == SpaceRoleType.developer.str) = false := by
              simpa using hdev
            rw [if_neg (by simp [roleKept, hdevf]),
              if_pos (by simp [roleKept, hmemMem, hlastf, hmgr])]
            rw [hr1]
            simp
          · rw [if_neg hdev, if_neg hmgr, ih devs mgrs _ hr2]
            have hdevf : (role.type == SpaceRoleType.developer.str) = false := by
              simpa using hdev
            have hmgrf : (role.type == SpaceRoleType.manager.str) = false := by
              simpa using hmgr
            rw [if_neg (by simp [roleKept, hdevf]), if_neg (by simp [roleKept, hmgrf])]
    · rw [if_neg hmem, ih devs mgrs cache hc]
      have hmemNot : role.userGUID ∉ userGUIDs := by
        simpa using hmem
      rw [if_neg (by simp [roleKept, hmemNot]), if_neg (by simp [roleKept, hmemNot])]

/-- `listSpaceDevsAndManagers` computes exactly the kept developer and manager
entries, in role order. -/
theorem listSpaceDevsAndManagers_eq (userGUIDs : List String) (spaceRoles : List Role)
    (spaceUsers : List User) :
    listSpaceDevsAndManagers userGUIDs spaceRoles spaceUsers =
      (keptEntries userGUIDs spaceUsers .developer spaceRoles,
        keptEntries userGUIDs spaceUsers .manager spaceRoles) := by
  have h := rolesLoop_eq userGUIDs spaceUsers spaceRoles [] [] (fun _ => "")
    (fun _ => Or.inl rfl)
  simpa [listSpaceDevsAndManagers] using h

/-- C10: a role whose type string is neither the developer nor the manager
role type — and likewise a role whose user guid resolves to an empty
username — contributes nothing to either output of
`listSpaceDevsAndManagers`: deleting it from the role list leaves both
buckets unchanged, so such a binding is never recreated on the new space. -/
theorem listSpaceDevsAndManagers_omits_other_roles (userGUIDs : List String)
    (l₁ l₂ : List Role) (role : Role) (spaceUsers : List User)
    (h : (role.type ≠ SpaceRoleType.developer.str ∧ role.type ≠ SpaceRoleType.manager.str) ∨
      lastUsername spaceUsers role.userGUID = "") :
    listSpaceDevsAndManagers userGUIDs (l₁ ++ role :: l₂) spaceUsers =
      listSpaceDevsAndManagers userGUIDs (l₁ ++ l₂) spaceUsers := by
  have hkept : ∀ t : SpaceRoleType, roleKept userGUIDs spaceUsers t role = false := by
    intro t
    rcases h with ⟨h1, h2⟩ | h1
    · have htype : (role.type == t.str) = false := by
        cases t
        · exact beq_eq_false_iff_ne.mpr h1
        · exact beq_eq_false_iff_ne.mpr h2
      simp [roleKept, htype]
    · simp [roleKept, h1]
  have hfilter : ∀ t : SpaceRoleType,
      keptEntries userGUIDs spaceUsers t (l₁ ++ role :: l₂) =
        keptEntries userGUIDs spaceUsers t (l₁ ++ l₂) := by
    intro t
    simp [keptEntries, List.filter_append, List.filter_cons, hkept t]
  rw [listSpaceDevsAndManagers_eq, listSpaceDevsAndManagers_eq, hfilter, hfilter]

/-- Witness for C10: an auditor role dropped between a manager role and the
end of the role list. -/
theorem listSpaceDevsAndManagers_omits_other_roles_witness :
    ((auditorRoleW.type ≠ SpaceRoleType.developer.str ∧
        auditorRoleW.type ≠ SpaceRoleType.manager.str) ∨
      lastUsername [userW] auditorRoleW.userGUID = "") ∧
    listSpaceDevsAndManagers ["user-1"] ([managerRoleW] ++ auditorRoleW :: []) [userW] =
      listSpaceDevsAndManagers ["user-1"] ([managerRoleW] ++ []) [userW] :=
  ⟨Or.inl (by decide),
    listSpaceDevsAndManagers_omits_other_roles ["user-1"] [managerRoleW] [] auditorRoleW
      [userW] (Or.inl (by decide))⟩

/-- C9: a user whose guid is bound by a space role but missing from the
recognized organization-member set is excluded from both developer/manager
snapshots (hence never recreated), and every recipient address returned by
`listRecipients` comes from a space user whose guid is a recognized member —
so the missing user is excluded from the recipient list as well. -/
theorem excluded_user_never_recreated_or_notified (userGUIDs : List String)
    (spaceRoles : List Role) (spaceUsers : List User)
    (parseAddress : String → Except Err Unit) (g : String)
    (hg : userGUIDs.contains g = false) :
    (∀ su ∈ (listSpaceDevsAndManagers userGUIDs spaceRoles spaceUsers).1, su.guid ≠ g) ∧
    (∀ su ∈ (listSpaceDevsAndManagers userGUIDs spaceRoles spaceUsers).2, su.guid ≠ g) ∧
    (∀ addresses, listRecipients parseAddress userGUIDs spaceUsers = .ok addresses →
      ∀ address ∈ addresses, ∃ u ∈ spaceUsers,
        userGUIDs.contains u.guid = true ∧ u.guid ≠ g ∧ u.username = address) := by
  have hmem : ∀ (t : SpaceRoleType) su,
      su ∈ keptEntries userGUIDs spaceUsers t spaceRoles → su.guid ≠ g := by
    intro t su hsu
    simp only [keptEntries, List.mem_map, List.mem_filter] at hsu
    obtain ⟨role, ⟨_, hkept⟩, rfl⟩ := hsu
    intro hguid
    have hguid' : role.userGUID = g := hguid
    have hcont : userGUIDs.contains role.userGUID = true := by
      simp only [roleKept, Bool.and_eq_true] at hkept
      exact hkept.1.1
    rw [hguid'] at hcont
    rw [hcont] at hg
    exact absurd hg (by decide)
  have hrec : ∀ (spaceUsers' : List User) (addresses : List String),
      listRecipients parseAddress userGUIDs spaceUsers' = .ok addresses →
      ∀ address ∈ addresses, ∃ u ∈ spaceUsers',
        userGUIDs.contains u.guid = true ∧ u.guid ≠ g ∧ u.username = address := by
    intro spaceUsers'
    induction spaceUsers' with
    | nil =>
      intro addresses hok address haddr
      simp only [listRecipients] at hok
      cases hok
      simp at haddr
    | cons u rest ih =>
      intro addresses hok address haddr
      simp only [listRecipients] at hok
      by_cases hu : (userGUIDs.contains u.guid) = true
      · rw [if_pos hu] at hok
        cases hp : parseAddress u.username with
        | error e => rw [hp] at hok; cases hok
        | ok v =>
          rw [hp] at hok
          cases hrest : listRecipients parseAddress userGUIDs rest with
          | error e => rw [hrest] at hok; cases hok
          | ok addrs =>
            rw [hrest] at hok
            cases hok
            rcases List.mem_cons.mp haddr with h' | h'
            · refine ⟨u, List.mem_cons_self _ _, hu, ?_, h'.symm⟩
              intro hug
              rw [hug] at hu
              rw [hu] at hg
              exact absurd hg (by decide)
            · obtain ⟨u', hu', hc', hne', husr'⟩ := ih addrs hrest address h'
              exact ⟨u', List.mem_cons_of_mem _ hu', hc', hne', husr'⟩
      · rw [if_neg hu] at hok
        obtain ⟨u', hu', hc', hne', husr'⟩ := ih addresses hok address haddr
        exact ⟨u', List.mem_cons_of_mem _ hu', hc', hne', husr'⟩
  refine ⟨?_, ?_, hrec spaceUsers⟩
  · intro su hsu
    rw [listSpaceDevsAndManagers_eq] at hsu
    exact hmem .developer su hsu
  · intro su hsu
    rw [listSpaceDevsAndManagers_eq] at hsu
    exact hmem .manager su hsu

/-- Witness for C9: a developer role bound to a user absent from the member
set, next to a recognized manager. -/
theorem excluded_user_never_recreated_or_notified_witness :
    (["user-1"].contains "user-9" = false) ∧
    ((∀ su ∈ (listSpaceDevsAndManagers ["user-1"] [managerRoleW, strangerRoleW]
        [userW, strangerW]).1, su.guid ≠ "user-9") ∧
    (∀ su ∈ (listSpaceDevsAndManagers ["user-1"] [managerRoleW, strangerRoleW]
        [userW, strangerW]).2, su.guid ≠ "user-9") ∧
    (∀ addresses, listRecipients (fun _ => .ok ()) ["user-1"] [userW, strangerW] =
        .ok addresses →
      ∀ address ∈ addresses, ∃ u ∈ [userW, strangerW],
        ["user-1"].contains u.guid = true ∧ u.guid ≠ "user-9" ∧ u.username = address)) :=
  ⟨rfl,
    excluded_user_never_recreated_or_notified ["user-1"] [managerRoleW, strangerRoleW]
      [userW, strangerW] (fun _ => .ok ()) "user-9" rfl⟩

end CgSandbox
